import Mathlib

/- Verification development for the AAK waveform synthesis core (gpuAAK.cu):
   geometry primitives, polarization-rotation coefficient calculator,
   spline-segment locator, per-sample synthesis kernel and driver, shallowly
   embedded over exact arithmetic (real numbers for the kernel mathematics,
   rationals for the time/index bookkeeping of the locator so that it stays
   executable).  The CPU path of the source is the one embedded; the CUDA
   path runs the same per-sample computation with a different schedule. -/

namespace GpuAAK

/-- Three-component real vector, mirroring the double[3] arrays of the source. -/
structure Vec3 where
  x : ℝ
  y : ℝ
  z : ℝ

/-- Dot product on 3-vectors (source: d_dot_product). -/
noncomputable def d_dot_product (u v : Vec3) : ℝ :=
  u.x * v.x + u.y * v.y + u.z * v.z

/-- Cross product on 3-vectors (source: d_cross, writing into w). -/
noncomputable def d_cross (u v : Vec3) : Vec3 :=
  ⟨u.y * v.z - u.z * v.y, u.z * v.x - u.x * v.z, u.x * v.y - u.y * v.x⟩

/-- Euclidean norm on 3-vectors (source: d_vec_norm). -/
noncomputable def d_vec_norm (u : Vec3) : ℝ :=
  Real.sqrt (u.x * u.x + u.y * u.y + u.z * u.z)

/-- Line-of-sight unit vector n built inside d_RotCoeff. -/
noncomputable def nVec (theta_S phi_S : ℝ) : Vec3 :=
  ⟨Real.sin theta_S * Real.cos phi_S,
   Real.sin theta_S * Real.sin phi_S,
   Real.cos theta_S⟩

/-- Spin direction vector S built inside d_RotCoeff. -/
noncomputable def sVec (theta_K phi_K : ℝ) : Vec3 :=
  ⟨Real.sin theta_K * Real.cos phi_K,
   Real.sin theta_K * Real.sin phi_K,
   Real.cos theta_K⟩

/-- Orbital angular-momentum vector L built inside d_RotCoeff. -/
noncomputable def lVec (iota theta_K phi_K alpha : ℝ) : Vec3 :=
  ⟨Real.cos iota * Real.sin theta_K * Real.cos phi_K
     + Real.sin iota * (Real.sin alpha * Real.sin phi_K
         - Real.cos alpha * Real.cos theta_K * Real.cos phi_K),
   Real.cos iota * Real.sin theta_K * Real.sin phi_K
     - Real.sin iota * (Real.sin alpha * Real.cos phi_K
         + Real.cos alpha * Real.cos theta_K * Real.sin phi_K),
   Real.cos iota * Real.cos theta_K + Real.sin iota * Real.cos alpha * Real.sin theta_K⟩

/-- Product of the norms of n x L and n x S, the quantity the source names
norm before clamping (d_RotCoeff line 47). -/
noncomputable def rotNormProd (iota theta_S phi_S theta_K phi_K alpha : ℝ) : ℝ :=
  d_vec_norm (d_cross (nVec theta_S phi_S) (lVec iota theta_K phi_K alpha)) *
    d_vec_norm (d_cross (nVec theta_S phi_S) (sVec theta_K phi_K))

/-- The clamped norm: the 1e-6 numerical-stability floor of d_RotCoeff line 52. -/
noncomputable def rotNormClamped (iota theta_S phi_S theta_K phi_K alpha : ℝ) : ℝ :=
  if rotNormProd iota theta_S phi_S theta_K phi_K alpha < 1e-6 then 1e-6
  else rotNormProd iota theta_S phi_S theta_K phi_K alpha

/-- cosrot of d_RotCoeff (line 54). -/
noncomputable def rotCos (iota theta_S phi_S theta_K phi_K alpha : ℝ) : ℝ :=
  d_dot_product
      (d_cross (nVec theta_S phi_S) (lVec iota theta_K phi_K alpha))
      (d_cross (nVec theta_S phi_S) (sVec theta_K phi_K))
    / rotNormClamped iota theta_S phi_S theta_K phi_K alpha

/-- sinrot of d_RotCoeff (lines 56-61). -/
noncomputable def rotSin (iota theta_S phi_S theta_K phi_K alpha : ℝ) : ℝ :=
  (d_dot_product (lVec iota theta_K phi_K alpha)
      (d_cross (nVec theta_S phi_S) (sVec theta_K phi_K))
    - d_dot_product (sVec theta_K phi_K)
        (d_cross (nVec theta_S phi_S) (lVec iota theta_K phi_K alpha)))
    / rotNormClamped iota theta_S phi_S theta_K phi_K alpha

/-- The four output scalars rot[0..3] of d_RotCoeff. -/
structure RotResult where
  rot0 : ℝ
  rot1 : ℝ
  rot2 : ℝ
  rot3 : ℝ

/-- d_RotCoeff output (lines 63-66): rot[0]=2 cosrot^2-1, rot[1]=cosrot sinrot,
rot[2]=-rot[1], rot[3]=rot[0]. -/
noncomputable def d_RotCoeff (iota theta_S phi_S theta_K phi_K alpha : ℝ) : RotResult :=
  ⟨2 * rotCos iota theta_S phi_S theta_K phi_K alpha
       * rotCos iota theta_S phi_S theta_K phi_K alpha - 1,
   rotCos iota theta_S phi_S theta_K phi_K alpha
     * rotSin iota theta_S phi_S theta_K phi_K alpha,
   -(rotCos iota theta_S phi_S theta_K phi_K alpha
       * rotSin iota theta_S phi_S theta_K phi_K alpha),
   2 * rotCos iota theta_S phi_S theta_K phi_K alpha
       * rotCos iota theta_S phi_S theta_K phi_K alpha - 1⟩

/-- Two-argument arctangent, modelling atan2(y, x) of the C library. -/
noncomputable def atan2 (y x : ℝ) : ℝ :=
  Complex.arg ⟨x, y⟩

/-- External environment of the kernel: the physical constants that come from
global.h and the integer-order Bessel function of the first kind supplied by
the platform library (gsl_sf_bessel_Jn on CPU, jn on CUDA).  These are
external to the translation unit under verification, so they are parameters. -/
structure Env where
  MTSUN_SI : ℝ
  GPCINSEC : ℝ
  YRSID_SI : ℝ
  AUsec : ℝ
  besselJ : ℤ → ℝ → ℝ

/-- Complex strain sample, as a pair (re, im) of reals (source type cmplx). -/
abbrev Cmplx := ℝ × ℝ

/-- The scalar and array arguments of make_waveform / get_waveform, bundled. -/
structure WfArgs where
  M_phys : ℝ
  S_phys : ℝ
  mu : ℝ
  qS : ℝ
  phiS : ℝ
  qK : ℝ
  phiK : ℝ
  dist : ℝ
  nmodes : ℤ
  mich : Bool
  delta_t : ℝ
  interp_array : List ℝ
  start_t_all : List ℝ
  interval_inds : List ℤ

/-- Pole clamp applied to qS and qK before the sample loop (lines 132-136):
first the low clamp at fill_val = 1e-6, then the high clamp at pi - 1e-6. -/
noncomputable def clampAngle (q : ℝ) : ℝ :=
  let q1 := if q < 1e-6 then (1e-6 : ℝ) else q
  if q1 > Real.pi - 1e-6 then Real.pi - 1e-6 else q1

/-- Staged spline coefficients: the kernel copies interp_array[0 .. 4*8*init_length)
into shared storage (lines 119-122). -/
def stagedCoeffs (interp_array : List ℝ) (init_length : ℕ) : List ℝ :=
  interp_array.take (4 * 8 * init_length)

/-- Staged knot times: the kernel copies start_t_all[0 .. init_length) into
shared storage (lines 126-129). -/
def stagedStartT (start_t_all : List ℝ) (init_length : ℕ) : List ℝ :=
  start_t_all.take init_length

/-- Flat index of spline coefficient number coeff_num of parameter par_num in
segment old_ind: (coeff_num * init_length + old_ind) * NUM_PARS + par_num,
with NUM_PARS = 8 (source comment line 193). -/
def coeffIndex (init_length coeff_num old_ind par_num : ℕ) : ℕ :=
  (coeff_num * init_length + old_ind) * 8 + par_num

/-- Cubic evaluation of one tracked parameter from the staged coefficient
buffer: value + c1*x + c2*x^2 + c3*x^3 (lines 194-242). -/
noncomputable def evalCubic (spline_coeffs : List ℝ) (init_length old_ind par_num : ℕ)
    (x : ℝ) : ℝ :=
  spline_coeffs.getD (coeffIndex init_length 0 old_ind par_num) 0
    + spline_coeffs.getD (coeffIndex init_length 1 old_ind par_num) 0 * x
    + spline_coeffs.getD (coeffIndex init_length 2 old_ind par_num) 0 * (x * x)
    + spline_coeffs.getD (coeffIndex init_length 3 old_ind par_num) 0 * (x * (x * x))

/-- Segment index for dense sample i: old_ind = interval_inds[i] (line 189). -/
def sampleSeg (a : WfArgs) (i : ℕ) : ℕ :=
  (a.interval_inds.getD i 0).toNat

/-- Local spline offset for dense sample i: x = t - start_t[old_ind] with
t = delta_t * i (lines 187-230). -/
noncomputable def sampleX (a : WfArgs) (init_length : ℕ) (i : ℕ) : ℝ :=
  a.delta_t * i - (stagedStartT a.start_t_all init_length).getD (sampleSeg a i) 0

/-- The five Bessel values J0..J4 used for harmonic n at argument ne
(lines 350-358): order n-2 goes through the J_{-1} = -J_1 identity when n = 1. -/
def besselVals (J : ℤ → ℝ → ℝ) (n : ℕ) (ne : ℝ) : ℝ × ℝ × ℝ × ℝ × ℝ :=
  (if n = 1 then -(J 1 ne) else J ((n : ℤ) - 2) ne,
   J ((n : ℤ) - 1) ne,
   J (n : ℤ) ne,
   J ((n : ℤ) + 1) ne,
   J ((n : ℤ) + 2) ne)

/-- Harmonic indices of the accumulation loop: n = 1..nmodes (line 327). -/
def harmonicIndices (nmodes : ℤ) : List ℕ :=
  (List.range nmodes.toNat).map (· + 1)

/-- Antenna-pattern response pairs (FplusI, FcrosI, FplusII, FcrosII):
Doppler-modulated heliocentric construction when mich, identity projection
(1,0),(0,1) otherwise (lines 274-318). -/
noncomputable def antennaF (env : Env) (mich : Bool) (t qS phiS qK phiK : ℝ) :
    ℝ × ℝ × ℝ × ℝ :=
  if mich then
    let halfsqrt3 := Real.sqrt 3 / 2
    let cosqS := Real.cos qS
    let sinqS := Real.sin qS
    let cosqK := Real.cos qK
    let sinqK := Real.sin qK
    let orbphs := 2 * Real.pi * t / env.YRSID_SI
    let cosorbphs := Real.cos (orbphs - phiS)
    let sinorbphs := Real.sin (orbphs - phiS)
    let cosq := 0.5 * cosqS - halfsqrt3 * sinqS * cosorbphs
    let phiw := orbphs + atan2 (halfsqrt3 * cosqS + 0.5 * sinqS * cosorbphs)
        (sinqS * sinorbphs)
    let psiup := 0.5 * cosqK - halfsqrt3 * sinqK * Real.cos (orbphs - phiK)
        - cosq * (cosqK * cosqS + sinqK * sinqS * Real.cos (phiK - phiS))
    let psidown := 0.5 * sinqK * sinqS * Real.sin (phiK - phiS)
        - halfsqrt3 * Real.cos orbphs
            * (cosqK * sinqS * Real.sin phiS - cosqS * sinqK * Real.sin phiK)
        - halfsqrt3 * Real.sin orbphs
            * (cosqS * sinqK * Real.cos phiK - cosqK * sinqS * Real.cos phiS)
    let psi := atan2 psiup psidown
    let cosq1 := 0.5 * (1 + cosq * cosq)
    let cos2phi := Real.cos (2 * phiw)
    let sin2phi := Real.sin (2 * phiw)
    let cos2psi := Real.cos (2 * psi)
    let sin2psi := Real.sin (2 * psi)
    (cosq1 * cos2phi * cos2psi - cosq * sin2phi * sin2psi,
     cosq1 * cos2phi * sin2psi + cosq * sin2phi * cos2psi,
     cosq1 * sin2phi * cos2psi + cosq * cos2phi * sin2psi,
     cosq1 * sin2phi * sin2psi - cosq * cos2phi * cos2psi)
  else (1, 0, 0, 1)

/-- Projection of the rotated strain contributions through the response pairs
into the two channels (hnI, hnII), scaled by sqrt(3)/2 in Doppler mode
(lines 377-385). -/
noncomputable def hn_channels (mich : Bool) (F : ℝ × ℝ × ℝ × ℝ) (Aplus Acros : ℝ) :
    ℝ × ℝ :=
  if mich then
    (Real.sqrt 3 / 2 * (F.1 * Aplus + F.2.1 * Acros),
     Real.sqrt 3 / 2 * (F.2.2.1 * Aplus + F.2.2.2 * Acros))
  else
    (F.1 * Aplus + F.2.1 * Acros, F.2.2.1 * Aplus + F.2.2.2 * Acros)

/-- One iteration of the harmonic loop (lines 327-388): phase, Bessel values,
intermediate amplitudes a, b, c, plus/cross contributions, rotation through
the d_RotCoeff matrix, and projection into the two channels. -/
noncomputable def harmonicStep (env : Env) (mich : Bool)
    (t Phi nu gimdot e Amp Ldotn Ldotn2 cos2gam sin2gam qS phiS : ℝ)
    (rot : RotResult) (F : ℝ × ℝ × ℝ × ℝ) (n : ℕ) : ℝ × ℝ :=
  let orbphs := 2 * Real.pi * t / env.YRSID_SI
  let cosorbphs := Real.cos (orbphs - phiS)
  let nPhi :=
    if mich then
      let fn := (n : ℝ) * nu + gimdot / Real.pi
      let doppler := 2 * Real.pi * fn * env.AUsec * Real.sin qS * cosorbphs
      (n : ℝ) * Phi + doppler
    else (n : ℝ) * Phi
  let ne := (n : ℝ) * e
  let J := besselVals env.besselJ n ne
  let J0 := J.1
  let J1 := J.2.1
  let J2 := J.2.2.1
  let J3 := J.2.2.2.1
  let J4 := J.2.2.2.2
  let a := -(n : ℝ) * Amp * (J0 - 2 * e * J1 + 2 / (n : ℝ) * J2 + 2 * e * J3 - J4)
      * Real.cos nPhi
  let b := -(n : ℝ) * Amp * Real.sqrt (1 - e * e) * (J0 - 2 * J2 + J4) * Real.sin nPhi
  let c := 2 * Amp * J2 * Real.cos nPhi
  let Aplus := -(1 + Ldotn2) * (a * cos2gam - b * sin2gam) + c * (1 - Ldotn2)
  let Acros := 2 * Ldotn * (b * cos2gam + a * sin2gam)
  let Aplus2 := Aplus * rot.rot0 + Acros * rot.rot1
  let Acros2 := Aplus * rot.rot2 + Acros * rot.rot3
  hn_channels mich F Aplus2 Acros2

/-- Per-sample synthesis (body of the loop at lines 164-392 of make_waveform):
returns the accumulated pair (hItemp, hIItemp) for dense sample i.  The staging
of coefficients and the qS/qK clamps, performed once before the loop in the
source, are pure and are re-derived here from the raw arguments. -/
noncomputable def makeSample (env : Env) (a : WfArgs) (init_length : ℕ) (i : ℕ) :
    ℝ × ℝ :=
  let fill_val : ℝ := 1e-6
  let qS := clampAngle a.qS
  let qK := clampAngle a.qK
  let cosqS := Real.cos qS
  let sinqS := Real.sin qS
  let cosqK := Real.cos qK
  let sinqK := Real.sin qK
  let cosphiK := Real.cos a.phiK
  let sinphiK := Real.sin a.phiK
  let mu_sec := a.mu * env.MTSUN_SI
  let zeta := mu_sec / a.dist / env.GPCINSEC
  let spline_coeffs := stagedCoeffs a.interp_array init_length
  let t := a.delta_t * i
  let old_ind := sampleSeg a i
  let x := sampleX a init_length i
  let e := evalCubic spline_coeffs init_length old_ind 0 x
  let Phi := evalCubic spline_coeffs init_length old_ind 1 x
  let gim := evalCubic spline_coeffs init_length old_ind 2 x
  let alp := evalCubic spline_coeffs init_length old_ind 3 x
  let nu := evalCubic spline_coeffs init_length old_ind 4 x
  let gimdot := evalCubic spline_coeffs init_length old_ind 5 x
  let OmegaPhi := evalCubic spline_coeffs init_length old_ind 6 x
  let lam0 := evalCubic spline_coeffs init_length old_ind 7 x
  let lam1 := if lam0 > Real.pi - fill_val then Real.pi - fill_val else lam0
  let lam := if lam1 < fill_val then fill_val else lam1
  let coslam := Real.cos lam
  let sinlam := Real.sin lam
  let cosalp := Real.cos alp
  let sinalp := Real.sin alp
  let cosqL := cosqK * coslam + sinqK * sinlam * cosalp
  let sinqL := Real.sqrt (1 - cosqL * cosqL)
  let phiLup := sinqK * sinphiK * coslam - cosphiK * sinlam * sinalp
      - cosqK * sinphiK * sinlam * cosalp
  let phiLdown := sinqK * cosphiK * coslam + sinphiK * sinlam * sinalp
      - cosqK * cosphiK * sinlam * cosalp
  let phiL := atan2 phiLup phiLdown
  let Ldotn := cosqL * cosqS + sinqL * sinqS * Real.cos (phiL - a.phiS)
  let Ldotn2 := Ldotn * Ldotn
  let Sdotn := cosqK * cosqS + sinqK * sinqS * Real.cos (a.phiK - a.phiS)
  let beta :=
    if a.S_phys = 0 then (0 : ℝ)
    else
      let betaup := -Sdotn + coslam * Ldotn
      let betadown := sinqS * Real.sin (a.phiK - a.phiS) * sinlam * cosalp
          + (cosqK * Sdotn - cosqS) / sinqK * sinlam * sinalp
      atan2 betaup betadown
  let gam := 2 * (gim + beta)
  let cos2gam := Real.cos gam
  let sin2gam := Real.sin gam
  let F := antennaF env a.mich t qS a.phiS qK a.phiK
  let Amp := (|OmegaPhi| * a.M_phys * env.MTSUN_SI) ^ ((2 : ℝ) / 3) * zeta
  let rot := d_RotCoeff lam qS a.phiS qK a.phiK alp
  (harmonicIndices a.nmodes).foldl
    (fun acc n =>
      let hn := harmonicStep env a.mich t Phi nu gimdot e Amp Ldotn Ldotn2
          cos2gam sin2gam qS a.phiS rot F n
      (acc.1 + hn.1, acc.2 + hn.2))
    ((0 : ℝ), (0 : ℝ))

/-- Final complex value stored for sample i (line 391): (hItemp, -hIItemp). -/
noncomputable def sampleFinal (env : Env) (a : WfArgs) (init_length : ℕ) (i : ℕ) :
    Cmplx :=
  ((makeSample env a init_length i).1, -(makeSample env a init_length i).2)

/-- Sequence of writes the kernel performs on the output buffer: for every
sample i, the zero initialization waveform[i] = cmplx(0,0) (line 185) followed
by the final store waveform[i] = cmplx(hItemp, -hIItemp) (line 391). -/
noncomputable def make_waveform_trace (env : Env) (a : WfArgs)
    (data_length init_length : ℕ) : List (ℕ × Cmplx) :=
  (List.range data_length).flatMap fun i =>
    [(i, ((0 : ℝ), (0 : ℝ))), (i, sampleFinal env a init_length i)]

/-- Replay a sequence of indexed writes on a caller-owned buffer. -/
def applyWrites (buf : List Cmplx) (ws : List (ℕ × Cmplx)) : List Cmplx :=
  ws.foldl (fun b w => b.set w.1 w.2) buf

/-- make_waveform: final state of the caller-owned output buffer after the
kernel's writes. -/
noncomputable def make_waveform (env : Env) (waveform : List Cmplx) (a : WfArgs)
    (data_length init_length : ℕ) : List Cmplx :=
  applyWrites waveform (make_waveform_trace env a data_length init_length)

/-- MAX_SPLINE_POINTS = 160 (line 70). -/
def MAX_SPLINE_POINTS : ℕ := 160

/-- The formatted configuration-error message of get_waveform (line 437). -/
def spline_points_error_msg (init_len : ℕ) : String :=
  "Initial length is greater than the number of maximum allowable spline points: "
    ++ toString init_len ++ " > " ++ toString MAX_SPLINE_POINTS

/-- get_waveform (lines 427-461): raises the configuration error when
init_len > MAX_SPLINE_POINTS, otherwise dispatches make_waveform exactly once
over the whole buffer. -/
noncomputable def get_waveform (env : Env) (waveform : List Cmplx) (a : WfArgs)
    (init_len out_len : ℕ) : Except String (List Cmplx) :=
  if init_len > MAX_SPLINE_POINTS then
    Except.error (spline_points_error_msg init_len)
  else
    Except.ok (make_waveform env waveform a out_len init_len)

/-- Loop of find_start_inds (lines 404-420), with an explicit structural fuel;
find_start_inds supplies fuel = length, which is enough for the loop to reach
its exit condition, so the fuel never runs out on the reachable paths.  State:
current loop index i, the start_inds written so far (the source writes them in
order from index 0) and the unit_length entries written so far.  Returns the
final (start_inds, unit_length, i + 1), the last component being the value
stored into *length on exit (line 423). -/
def fsiLoop (t_arr : List ℚ) (T delta_t : ℚ) (new_length length : ℕ) :
    ℕ → ℕ → List ℤ → List ℤ → List ℤ × List ℤ × ℕ
  | 0, i, start_inds, unit_length => (start_inds, unit_length, i + 1)
  | fuel + 1, i, start_inds, unit_length =>
    if i < length then
      let t := t_arr.getD i 0
      if t < T then
        let si : ℤ := ⌈t / delta_t⌉
        fsiLoop t_arr T delta_t new_length length fuel (i + 1)
          (start_inds ++ [si])
          (unit_length ++ [si - start_inds.getD (i - 1) 0])
      else
        (start_inds ++ [(new_length : ℤ)],
         unit_length ++ [(new_length : ℤ) - start_inds.getD (i - 1) 0],
         i + 1)
    else (start_inds, unit_length, i + 1)

/-- find_start_inds (lines 398-424): T = (new_length - 1) * delta_t,
start_inds[0] = 0, then the scan loop from i = 1. -/
def find_start_inds (t_arr : List ℚ) (delta_t : ℚ) (length new_length : ℕ) :
    List ℤ × List ℤ × ℕ :=
  fsiLoop t_arr (((new_length : ℚ) - 1) * delta_t) delta_t new_length length
    length 1 [0] []

/-- Concrete environment used for witness instantiations. -/
noncomputable def envOne : Env :=
  ⟨1, 1, 1, 1, fun _ _ => 0⟩

/-- Concrete argument bundle used for witness instantiations. -/
noncomputable def argsZero : WfArgs :=
  ⟨0, 0, 0, 0, 0, 0, 0, 1, 0, false, 1, [], [0], [0]⟩

/-- Lagrange-type polynomial identity behind the rotation coefficients: for all
3-vectors n, L, S, writing u = n x L and v = n x S,
4 (u.v)^2 + (L.v - S.u)^2 (n.n) = 4 (u.u)(v.v).  It combines the Lagrange
identity (u.v)^2 + |u x v|^2 = (u.u)(v.v) with (n x L) x (n x S) = (n.(L x S)) n
and L.(n x S) = -S.(n x L) = the scalar triple product. -/
theorem lagrange_cross (n L S : Vec3) :
    4 * d_dot_product (d_cross n L) (d_cross n S) ^ 2
      + (d_dot_product L (d_cross n S) - d_dot_product S (d_cross n L)) ^ 2
        * d_dot_product n n
    = 4 * (d_dot_product (d_cross n L) (d_cross n L)
        * d_dot_product (d_cross n S) (d_cross n S)) := by
  simp only [d_dot_product, d_cross]
  ring

/-- The line-of-sight vector built by d_RotCoeff from spherical angles is a
unit vector. -/
theorem nVec_unit (theta_S phi_S : ℝ) :
    d_dot_product (nVec theta_S phi_S) (nVec theta_S phi_S) = 1 := by
  simp only [nVec, d_dot_product]
  linear_combination (Real.sin theta_S) ^ 2 * Real.sin_sq_add_cos_sq phi_S
    + Real.sin_sq_add_cos_sq theta_S

/-- The square of d_vec_norm is the self dot product. -/
theorem norm_sq_eq_dot (u : Vec3) : d_vec_norm u ^ 2 = d_dot_product u u := by
  have h : 0 ≤ u.x * u.x + u.y * u.y + u.z * u.z :=
    add_nonneg (add_nonneg (mul_self_nonneg _) (mul_self_nonneg _)) (mul_self_nonneg _)
  simp only [d_vec_norm, d_dot_product]
  exact Real.sq_sqrt h

/-- C2: for every geometry input to d_RotCoeff for which the product of the
norms of n x L and n x S is at least the 1e-6 floor (so the floor is not
engaged), the outputs satisfy rot[0]^2 + rot[1]^2 = 1; in the exact real
arithmetic of this embedding the approximate identity of the claim holds
exactly. -/
theorem rot_matrix_unit_norm (iota theta_S phi_S theta_K phi_K alpha : ℝ)
    (h : 1e-6 ≤ rotNormProd iota theta_S phi_S theta_K phi_K alpha) :
    (d_RotCoeff iota theta_S phi_S theta_K phi_K alpha).rot0 ^ 2
      + (d_RotCoeff iota theta_S phi_S theta_K phi_K alpha).rot1 ^ 2 = 1 := by
  have hclamp : rotNormClamped iota theta_S phi_S theta_K phi_K alpha
      = rotNormProd iota theta_S phi_S theta_K phi_K alpha := by
    unfold rotNormClamped
    rw [if_neg (not_lt.mpr h)]
  have hpos : (0 : ℝ) < rotNormProd iota theta_S phi_S theta_K phi_K alpha :=
    lt_of_lt_of_le (by norm_num) h
  have hne : rotNormProd iota theta_S phi_S theta_K phi_K alpha ≠ 0 := ne_of_gt hpos
  set n := nVec theta_S phi_S with hn
  set L := lVec iota theta_K phi_K alpha with hL
  set S := sVec theta_K phi_K with hS
  set ν := rotNormProd iota theta_S phi_S theta_K phi_K alpha with hν
  have hsq : ν ^ 2 = d_dot_product (d_cross n L) (d_cross n L)
      * d_dot_product (d_cross n S) (d_cross n S) := by
    rw [hν]
    unfold rotNormProd
    rw [mul_pow, ← hn, ← hL, ← hS, norm_sq_eq_dot, norm_sq_eq_dot]
  have key : 4 * d_dot_product (d_cross n L) (d_cross n S) ^ 2
      + (d_dot_product L (d_cross n S) - d_dot_product S (d_cross n L)) ^ 2
      = 4 * (d_dot_product (d_cross n L) (d_cross n L)
          * d_dot_product (d_cross n S) (d_cross n S)) := by
    have h1 := lagrange_cross n L S
    rw [hn] at h1 ⊢
    rw [nVec_unit] at h1
    linarith [h1]
  set d := d_dot_product (d_cross n L) (d_cross n S) with hd
  set sdiff := d_dot_product L (d_cross n S) - d_dot_product S (d_cross n L) with hsd
  have hcs : 4 * (d / ν) ^ 2 + (sdiff / ν) ^ 2 = 4 := by
    field_simp
    linear_combination key - 4 * hsq
  have hrc : rotCos iota theta_S phi_S theta_K phi_K alpha = d / ν := by
    unfold rotCos
    rw [hclamp, ← hn, ← hL, ← hS, ← hd]
  have hrs : rotSin iota theta_S phi_S theta_K phi_K alpha = sdiff / ν := by
    unfold rotSin
    rw [hclamp, ← hn, ← hL, ← hS, ← hsd]
  show (2 * rotCos iota theta_S phi_S theta_K phi_K alpha
       * rotCos iota theta_S phi_S theta_K phi_K alpha - 1) ^ 2
      + (rotCos iota theta_S phi_S theta_K phi_K alpha
       * rotSin iota theta_S phi_S theta_K phi_K alpha) ^ 2 = 1
  rw [hrc, hrs]
  linear_combination (d / ν) ^ 2 * hcs

/-- A concrete non-degenerate geometry: the norm product evaluates to 1. -/
theorem rotNormProd_concrete :
    rotNormProd (Real.pi/2) (Real.pi/2) 0 (Real.pi/2) (Real.pi/2) 0 = 1 := by
  simp [rotNormProd, nVec, sVec, lVec, d_cross, d_vec_norm]

/-- Witness for C2 at iota = theta_S = theta_K = phi_K = pi/2, phi_S = alpha = 0. -/
theorem rot_matrix_unit_norm_witness :
    1e-6 ≤ rotNormProd (Real.pi/2) (Real.pi/2) 0 (Real.pi/2) (Real.pi/2) 0 ∧
    (d_RotCoeff (Real.pi/2) (Real.pi/2) 0 (Real.pi/2) (Real.pi/2) 0).rot0 ^ 2
      + (d_RotCoeff (Real.pi/2) (Real.pi/2) 0 (Real.pi/2) (Real.pi/2) 0).rot1 ^ 2 = 1 := by
  have h : (1e-6 : ℝ) ≤ rotNormProd (Real.pi/2) (Real.pi/2) 0 (Real.pi/2) (Real.pi/2) 0 := by
    rw [rotNormProd_concrete]; norm_num
  exact ⟨h, rot_matrix_unit_norm _ _ _ _ _ _ h⟩

/-- C3: for every input, including norm-floor-engaged degenerate geometry, the
d_RotCoeff output satisfies rot[0] = rot[3] and rot[1] = -rot[2] by
construction (lines 63-66). -/
theorem rot_matrix_antidiagonal (iota theta_S phi_S theta_K phi_K alpha : ℝ) :
    (d_RotCoeff iota theta_S phi_S theta_K phi_K alpha).rot0
      = (d_RotCoeff iota theta_S phi_S theta_K phi_K alpha).rot3 ∧
    (d_RotCoeff iota theta_S phi_S theta_K phi_K alpha).rot1
      = -(d_RotCoeff iota theta_S phi_S theta_K phi_K alpha).rot2 := by
  constructor <;> simp [d_RotCoeff]


/-- Value appended at the end of a list, read back by getD at the old length. -/
theorem getD_concat_self (s : List ℤ) (a : ℤ) (d : ℤ) :
    (s ++ [a]).getD s.length d = a := by
  simp [List.getD_eq_getElem?_getD, List.getElem?_append_right (le_refl s.length)]

/-- Loop invariant for the clip branch of find_start_inds: as long as some
still-unprocessed knot index j has t_arr[j] at or past the window end T, the
recorded unit lengths telescope to exactly new_length when the loop exits
through the clip branch.  The invariant carried is that the unit lengths
written so far sum to the last start index written. -/
theorem fsiLoop_sum_truncation (t_arr : List ℚ) (T delta_t : ℚ) (new_length length : ℕ) :
    ∀ (fuel i : ℕ) (s u : List ℤ),
      s.length = i →
      u.sum = s.getD (i - 1) 0 →
      (∃ j, i ≤ j ∧ j < length ∧ T ≤ t_arr.getD j 0) →
      length ≤ fuel + i →
      (fsiLoop t_arr T delta_t new_length length fuel i s u).2.1.sum = new_length := by
  intro fuel
  induction fuel with
  | zero =>
    intro i s u hlen hinv hex hfuel
    obtain ⟨j, hij, hjl, _⟩ := hex
    omega
  | succ f ih =>
    intro i s u hlen hinv hex hfuel
    obtain ⟨j, hij, hjl, hjT⟩ := hex
    have hil : i < length := lt_of_le_of_lt hij hjl
    rw [fsiLoop]
    rw [if_pos hil]
    by_cases ht : t_arr.getD i 0 < T
    · rw [if_pos ht]
      refine ih (i + 1) _ _ (by simp [hlen]) ?_ ?_ (by omega)
      · have h1 : i + 1 - 1 = s.length := by omega
        rw [h1, getD_concat_self, List.sum_append, hinv]
        simp only [List.sum_cons, List.sum_nil, add_zero]
        omega
      · refine ⟨j, ?_, hjl, hjT⟩
        rcases Nat.eq_or_lt_of_le hij with h | h
        · exfalso; rw [← h] at hjT; exact absurd ht (not_lt.mpr hjT)
        · omega
    · rw [if_neg ht]
      simp only [List.sum_append, List.sum_cons, List.sum_nil, add_zero, hinv]
      ring

/-- C4 (amended): for every strictly increasing knot-time array and positive
sample spacing, when early truncation occurs — some knot time at index >= 1
reaches the end of the output time window, so the locator exits through its
clip branch — the segment lengths computed by find_start_inds sum to exactly
the output sample count new_length. -/
theorem find_start_inds_sum_on_truncation (t_arr : List ℚ) (delta_t : ℚ)
    (length new_length : ℕ)
    (hinc : List.Chain' (· < ·) t_arr) (hdt : 0 < delta_t)
    (hex : ∃ j, 1 ≤ j ∧ j < length ∧
      ((new_length : ℚ) - 1) * delta_t ≤ t_arr.getD j 0) :
    (find_start_inds t_arr delta_t length new_length).2.1.sum = new_length := by
  obtain ⟨j, h1, h2, h3⟩ := hex
  exact fsiLoop_sum_truncation t_arr _ delta_t new_length length length 1 [0] []
    rfl rfl ⟨j, h1, h2, h3⟩ (by omega)

/-- C4 counterexample to the claim as stated: knot times [0, 1], spacing 1,
knot count 2, output length 3.  The array is strictly increasing, the spacing
positive, and every processed knot time (index 1 onward) is strictly inside
the output window, so no early truncation occurs — yet the computed segment
lengths sum to 1, not to the output sample count 3. -/
theorem find_start_inds_sum_counterexample :
    List.Chain' (· < ·) [(0:ℚ), 1] ∧ (0:ℚ) < 1 ∧
    (∀ j, j < 2 → 1 ≤ j → ([(0:ℚ), 1].getD j 0) < (((3:ℕ):ℚ) - 1) * 1) ∧
    (find_start_inds [(0:ℚ), 1] 1 2 3).2.1.sum = 1 ∧
    ((1 : ℤ) ≠ (3 : ℤ)) := by
  refine ⟨by norm_num, by norm_num, ?_, ?_, by decide⟩
  · intro j hj h1
    interval_cases j
    norm_num
  · norm_num [find_start_inds, fsiLoop]

/-- Witness for the amended C4: knot times [0, 5] hit the window end, and the
segment lengths sum to the output sample count 3. -/
theorem find_start_inds_sum_on_truncation_witness :
    List.Chain' (· < ·) [(0:ℚ), 5] ∧ (0:ℚ) < 1 ∧
    (find_start_inds [(0:ℚ), 5] 1 2 3).2.1.sum = 3 := by
  refine ⟨by norm_num, by norm_num, ?_⟩
  exact find_start_inds_sum_on_truncation [0, 5] 1 2 3 (by norm_num) (by norm_num)
    ⟨1, le_refl 1, by norm_num, by norm_num⟩

/-- The loop only appends to the start_inds array. -/
theorem fsiLoop_inds_extend (t_arr : List ℚ) (T delta_t : ℚ) (new_length length : ℕ) :
    ∀ (fuel i : ℕ) (s u : List ℤ),
      ∃ rest, (fsiLoop t_arr T delta_t new_length length fuel i s u).1 = s ++ rest := by
  intro fuel
  induction fuel with
  | zero => intro i s u; exact ⟨[], by simp [fsiLoop]⟩
  | succ f ih =>
    intro i s u
    rw [fsiLoop]
    by_cases hil : i < length
    · rw [if_pos hil]
      by_cases ht : t_arr.getD i 0 < T
      · rw [if_pos ht]
        obtain ⟨rest, hrest⟩ := ih (i + 1) (s ++ [⌈t_arr.getD i 0 / delta_t⌉])
          (u ++ [⌈t_arr.getD i 0 / delta_t⌉ - s.getD (i - 1) 0])
        exact ⟨[⌈t_arr.getD i 0 / delta_t⌉] ++ rest, by rw [hrest, List.append_assoc]⟩
      · rw [if_neg ht]
        exact ⟨[(new_length : ℤ)], rfl⟩
    · rw [if_neg hil]
      exact ⟨[], by simp⟩

/-- When every remaining knot time is strictly inside the window, the loop
runs to completion and exits with loop index = length, storing length + 1. -/
theorem fsiLoop_exit_no_trunc (t_arr : List ℚ) (T delta_t : ℚ) (new_length length : ℕ) :
    ∀ (fuel i : ℕ) (s u : List ℤ),
      (∀ j, i ≤ j → j < length → t_arr.getD j 0 < T) →
      length ≤ fuel + i → i ≤ length →
      (fsiLoop t_arr T delta_t new_length length fuel i s u).2.2 = length + 1 := by
  intro fuel
  induction fuel with
  | zero =>
    intro i s u hno hfuel hil
    have : i = length := by omega
    simp [fsiLoop, this]
  | succ f ih =>
    intro i s u hno hfuel hil
    rw [fsiLoop]
    by_cases h : i < length
    · rw [if_pos h, if_pos (hno i (le_refl i) h)]
      exact ih (i + 1) _ _ (fun j hj hjl => hno j (by omega) hjl) (by omega) (by omega)
    · rw [if_neg h]
      have : i = length := by omega
      simp [this]

/-- C10: find_start_inds always sets start_inds[0] = 0 regardless of the
first knot time, and the stored length out-parameter is the exit loop index
plus one; in particular, with at least one knot and every knot time from
index 1 onward strictly below the output window end (no truncation), the
returned effective length is the original knot count plus one. -/
theorem find_start_inds_first_ind_and_exit_length (t_arr : List ℚ) (delta_t : ℚ)
    (length new_length : ℕ) :
    (find_start_inds t_arr delta_t length new_length).1.getD 0 0 = 0 ∧
    (1 ≤ length →
      (∀ j, j < length → 1 ≤ j →
        t_arr.getD j 0 < ((new_length : ℚ) - 1) * delta_t) →
      (find_start_inds t_arr delta_t length new_length).2.2 = length + 1) := by
  constructor
  · obtain ⟨rest, hrest⟩ := fsiLoop_inds_extend t_arr
      (((new_length : ℚ) - 1) * delta_t) delta_t new_length length length 1 [0] []
    unfold find_start_inds
    rw [hrest]
    rfl
  · intro h1 hno
    exact fsiLoop_exit_no_trunc t_arr _ delta_t new_length length length 1 [0] []
      (fun j hj hjl => hno j hjl hj) (by omega) h1

/-- Witness for C10 at knot times [0, 1], spacing 1, knot count 2, output
length 3: start_inds[0] = 0 and the stored length is 2 + 1. -/
theorem find_start_inds_first_ind_and_exit_length_witness :
    (find_start_inds [(0:ℚ), 1] 1 2 3).1.getD 0 0 = 0 ∧
    (find_start_inds [(0:ℚ), 1] 1 2 3).2.2 = 2 + 1 := by
  refine ⟨(find_start_inds_first_ind_and_exit_length [(0:ℚ), 1] 1 2 3).1, ?_⟩
  refine (find_start_inds_first_ind_and_exit_length [(0:ℚ), 1] 1 2 3).2 (by norm_num) ?_
  intro j hj h1
  interval_cases j
  norm_num


/-- C1: get_waveform raises the configuration error with the descriptive
message, and dispatches no synthesis, exactly when the trajectory segment
count init_len exceeds MAX_SPLINE_POINTS = 160; for every init_len at most
160 (in particular exactly 160) it proceeds to synthesis via make_waveform
and does not raise this error. -/
theorem get_waveform_max_spline_check (env : Env) (w : List Cmplx) (a : WfArgs)
    (init_len out_len : ℕ) :
    (MAX_SPLINE_POINTS < init_len →
      get_waveform env w a init_len out_len
        = Except.error (spline_points_error_msg init_len)) ∧
    (init_len ≤ MAX_SPLINE_POINTS →
      get_waveform env w a init_len out_len
        = Except.ok (make_waveform env w a out_len init_len)) := by
  constructor
  · intro h
    unfold get_waveform
    rw [if_pos h]
  · intro h
    unfold get_waveform
    rw [if_neg (not_lt.mpr h)]

/-- Witness for C1 at init_len = 161 (error) and init_len = 160 (proceeds). -/
theorem get_waveform_max_spline_check_witness :
    MAX_SPLINE_POINTS < 161 ∧
    get_waveform envOne [] argsZero 161 0
      = Except.error (spline_points_error_msg 161) ∧
    (160 : ℕ) ≤ MAX_SPLINE_POINTS ∧
    get_waveform envOne [] argsZero 160 0
      = Except.ok (make_waveform envOne [] argsZero 0 160) :=
  ⟨by decide,
   (get_waveform_max_spline_check envOne [] argsZero 161 0).1 (by decide),
   by decide,
   (get_waveform_max_spline_check envOne [] argsZero 160 0).2 (by decide)⟩

/-- C6: for harmonic index n the kernel evaluates the five integer-order
Bessel values of the first kind at argument n*e with orders n-2, n-1, n, n+1,
n+2; for n = 1 the order-(n-2) value used equals -J1(e), applying the
identity J_{-1} = -J_1, and for n >= 2 it is J_{n-2}(n*e). -/
theorem bessel_order_selection (J : ℤ → ℝ → ℝ) (e : ℝ) (n : ℕ) :
    (besselVals J 1 (((1 : ℕ) : ℝ) * e)).1 = -(J 1 e) ∧
    (2 ≤ n → (besselVals J n (((n : ℕ) : ℝ) * e)).1 = J ((n : ℤ) - 2) (((n : ℕ) : ℝ) * e)) ∧
    (besselVals J n (((n : ℕ) : ℝ) * e)).2
      = (J ((n : ℤ) - 1) (((n : ℕ) : ℝ) * e), J (n : ℤ) (((n : ℕ) : ℝ) * e),
         J ((n : ℤ) + 1) (((n : ℕ) : ℝ) * e), J ((n : ℤ) + 2) (((n : ℕ) : ℝ) * e)) := by
  refine ⟨?_, ?_, rfl⟩
  · simp [besselVals]
  · intro h
    have hne : n ≠ 1 := by omega
    simp [besselVals, hne]

/-- Witness for C6 at n = 2 with the zero Bessel interface. -/
theorem bessel_order_selection_witness :
    (2 : ℕ) ≤ 2 ∧
    (besselVals (fun _ _ => (0 : ℝ)) 2 (((2 : ℕ) : ℝ) * 0)).1
      = (fun _ _ => (0 : ℝ)) ((2 : ℤ) - 2) (((2 : ℕ) : ℝ) * 0) :=
  ⟨by decide, (bessel_order_selection (fun _ _ => (0 : ℝ)) 0 2).2.1 (by decide)⟩

/-- C7: in fixed-antenna mode (mich = false) the response pairs are the
identity projection (1,0) and (0,1) and the per-harmonic channel pair is
exactly (Aplus, Acros) with no extra scaling, whereas in Doppler-modulated
mode (mich = true) both channel contributions carry the factor sqrt(3)/2. -/
theorem antenna_identity_and_doppler_scaling (env : Env)
    (t qS phiS qK phiK Aplus Acros FpI FcI FpII FcII : ℝ) :
    antennaF env false t qS phiS qK phiK = (1, 0, 0, 1) ∧
    hn_channels false (antennaF env false t qS phiS qK phiK) Aplus Acros
      = (Aplus, Acros) ∧
    hn_channels true (FpI, FcI, FpII, FcII) Aplus Acros
      = (Real.sqrt 3 / 2 * (FpI * Aplus + FcI * Acros),
         Real.sqrt 3 / 2 * (FpII * Aplus + FcII * Acros)) := by
  refine ⟨rfl, ?_, rfl⟩
  simp [hn_channels, antennaF]

/-- Replaying writes never changes the buffer length. -/
theorem length_applyWrites (ws : List (ℕ × Cmplx)) : ∀ buf : List Cmplx,
    (applyWrites buf ws).length = buf.length := by
  induction ws with
  | nil => intro buf; rfl
  | cons w ws ih =>
    intro buf
    simp only [applyWrites, List.foldl_cons]
    rw [show List.foldl (fun b w => b.set w.1 w.2) (buf.set w.1 w.2) ws
        = applyWrites (buf.set w.1 w.2) ws from rfl]
    rw [ih, List.length_set]

/-- Writes replay left to right across concatenation. -/
theorem applyWrites_append (buf : List Cmplx) (t1 t2 : List (ℕ × Cmplx)) :
    applyWrites buf (t1 ++ t2) = applyWrites (applyWrites buf t1) t2 := by
  simp [applyWrites, List.foldl_append]

/-- The write trace grows by the zero-init and final store of the new sample. -/
theorem trace_succ (env : Env) (a : WfArgs) (il dl : ℕ) :
    make_waveform_trace env a (dl + 1) il
      = make_waveform_trace env a dl il
        ++ [(dl, ((0:ℝ), (0:ℝ))), (dl, sampleFinal env a il dl)] := by
  unfold make_waveform_trace
  rw [List.range_succ, List.flatMap_append]
  simp

/-- After replaying the kernel write trace on a buffer of matching length,
entry i holds the final per-sample value. -/
theorem applyWrites_trace_getD (env : Env) (a : WfArgs) (il : ℕ) :
    ∀ (dl : ℕ) (w : List Cmplx), dl ≤ w.length → ∀ i, i < dl →
      (applyWrites w (make_waveform_trace env a dl il)).getD i ((0:ℝ), (0:ℝ))
        = sampleFinal env a il i := by
  intro dl
  induction dl with
  | zero => intro w _ i hi; omega
  | succ n ih =>
    intro w hw i hi
    rw [trace_succ, applyWrites_append]
    have hset : applyWrites (applyWrites w (make_waveform_trace env a n il))
        [(n, ((0:ℝ), (0:ℝ))), (n, sampleFinal env a il n)]
        = (applyWrites w (make_waveform_trace env a n il)).set n
            (sampleFinal env a il n) := by
      simp [applyWrites, List.set_set]
    rw [hset]
    by_cases hin : i = n
    · subst hin
      have hlen : i < (applyWrites w (make_waveform_trace env a i il)).length := by
        rw [length_applyWrites]; omega
      simp [List.getD_eq_getElem?_getD, List.getElem?_set_self hlen]
    · have hlt : i < n := by omega
      have hne : n ≠ i := fun h => hin h.symm
      rw [List.getD_eq_getElem?_getD, List.getElem?_set_ne hne,
        ← List.getD_eq_getElem?_getD]
      exact ih w (by omega) i hlt

/-- With nmodes below one, there are no harmonic loop iterations. -/
theorem harmonicIndices_nonpos (nmodes : ℤ) (h : nmodes < 1) :
    harmonicIndices nmodes = [] := by
  unfold harmonicIndices
  have h0 : nmodes.toNat = 0 := by omega
  rw [h0]
  rfl

/-- With no harmonic iterations the accumulators stay at zero. -/
theorem makeSample_no_modes (env : Env) (a : WfArgs) (il i : ℕ)
    (h : a.nmodes < 1) : makeSample env a il i = ((0:ℝ), (0:ℝ)) := by
  simp only [makeSample, harmonicIndices_nonpos a.nmodes h, List.foldl_nil]

/-- C9: when nmodes is less than 1 the harmonic accumulation loop never
executes and every output sample is written as the zero complex value
(0.0, -0.0) (the kernel zero-initializes each slot and the final store writes
the negated zero accumulator; in exact real arithmetic -0 = 0). -/
theorem make_waveform_no_modes (env : Env) (a : WfArgs) (dl il : ℕ) (w : List Cmplx)
    (hn : a.nmodes < 1) (hw : w.length = dl) :
    harmonicIndices a.nmodes = [] ∧
    ∀ i, i < dl →
      (make_waveform env w a dl il).getD i ((0:ℝ), (0:ℝ)) = ((0:ℝ), -(0:ℝ)) := by
  refine ⟨harmonicIndices_nonpos a.nmodes hn, fun i hi => ?_⟩
  unfold make_waveform
  rw [applyWrites_trace_getD env a il dl w (le_of_eq hw.symm) i hi]
  unfold sampleFinal
  rw [makeSample_no_modes env a il i hn]

/-- Witness for C9 with nmodes = 0 and a one-sample buffer. -/
theorem make_waveform_no_modes_witness :
    argsZero.nmodes < 1 ∧ harmonicIndices argsZero.nmodes = [] ∧
    (make_waveform envOne [((0:ℝ), (0:ℝ))] argsZero 1 160).getD 0 ((0:ℝ), (0:ℝ))
      = ((0:ℝ), -(0:ℝ)) := by
  have h := make_waveform_no_modes envOne argsZero 1 160 [((0:ℝ), (0:ℝ))]
    (by decide) rfl
  exact ⟨by decide, h.1, h.2 0 (by decide)⟩

/-- Indices at or past data_length are never written. -/
theorem trace_filter_ge (env : Env) (a : WfArgs) (il : ℕ) : ∀ (dl i : ℕ), dl ≤ i →
    (make_waveform_trace env a dl il).filter (fun p => p.1 == i) = [] := by
  intro dl
  induction dl with
  | zero => intro i _; rfl
  | succ n ih =>
    intro i hi
    rw [trace_succ, List.filter_append, ih i (by omega)]
    have hne : (n == i) = false := beq_eq_false_iff_ne.mpr (by omega)
    simp [List.filter, hne]

/-- The writes to entry i are exactly the zero-init followed by the final
store. -/
theorem trace_filter_eq (env : Env) (a : WfArgs) (il : ℕ) : ∀ (dl i : ℕ), i < dl →
    (make_waveform_trace env a dl il).filter (fun p => p.1 == i)
      = [(i, ((0:ℝ), (0:ℝ))), (i, sampleFinal env a il i)] := by
  intro dl
  induction dl with
  | zero => intro i hi; omega
  | succ n ih =>
    intro i hi
    rw [trace_succ, List.filter_append]
    by_cases h : i = n
    · subst h
      rw [trace_filter_ge env a il i i (le_refl i)]
      simp [List.filter]
    · rw [ih i (by omega)]
      have hne : (n == i) = false := beq_eq_false_iff_ne.mpr (fun hh => h hh.symm)
      simp [List.filter, hne]

/-- C8 (amended): during one synthesis call the kernel writes every output
entry i < data_length exactly twice — a zero initialization followed by the
final store — and the final value of waveform[i] is the complex number
(hI, -hII) with hI and hII the accumulated channel contributions of
makeSample. -/
theorem make_waveform_writes_per_entry (env : Env) (a : WfArgs) (dl il : ℕ)
    (w : List Cmplx) (i : ℕ) (hi : i < dl) (hw : w.length = dl) :
    (make_waveform_trace env a dl il).filter (fun p => p.1 == i)
      = [(i, ((0:ℝ), (0:ℝ))), (i, sampleFinal env a il i)] ∧
    (make_waveform env w a dl il).getD i ((0:ℝ), (0:ℝ))
      = ((makeSample env a il i).1, -(makeSample env a il i).2) := by
  refine ⟨trace_filter_eq env a il dl i hi, ?_⟩
  unfold make_waveform
  rw [applyWrites_trace_getD env a il dl w (le_of_eq hw.symm) i hi]
  rfl

/-- C8 counterexample to "writes every entry exactly once": with one output
sample, entry 0 receives two writes (the zero initialization of line 185 and
the final store of line 391), not one. -/
theorem make_waveform_write_once_counterexample :
    ((make_waveform_trace envOne argsZero 1 160).filter (fun p => p.1 == 0)).length = 2 ∧
    ((make_waveform_trace envOne argsZero 1 160).filter (fun p => p.1 == 0)).length ≠ 1 := by
  have h := trace_filter_eq envOne argsZero 160 1 0 (by decide)
  rw [h]
  exact ⟨rfl, by decide⟩

/-- Witness for the amended C8 on a one-sample buffer. -/
theorem make_waveform_writes_per_entry_witness :
    (0 : ℕ) < 1 ∧
    (make_waveform_trace envOne argsZero 1 160).filter (fun p => p.1 == 0)
      = [(0, ((0:ℝ), (0:ℝ))), (0, sampleFinal envOne argsZero 160 0)] ∧
    (make_waveform envOne [((0:ℝ), (0:ℝ))] argsZero 1 160).getD 0 ((0:ℝ), (0:ℝ))
      = ((makeSample envOne argsZero 160 0).1, -(makeSample envOne argsZero 160 0).2) := by
  have h := make_waveform_writes_per_entry envOne argsZero 1 160 [((0:ℝ), (0:ℝ))] 0
    (by decide) rfl
  exact ⟨by decide, h.1, h.2⟩

/-- Reading inside the staged window is reading the original buffer. -/
theorem getD_take {α : Type} (d : α) : ∀ (l : List α) (n k : ℕ), k < n →
    (l.take n).getD k d = l.getD k d := by
  intro l
  induction l with
  | nil => intro n k h; simp
  | cons a t ih =>
    intro n k h
    cases n with
    | zero => omega
    | succ m =>
      cases k with
      | zero => simp
      | succ j => simpa using ih m j (by omega)

/-- C5: each tracked orbital-element parameter p < 8 at output sample i is
evaluated as value + c1*x + c2*x^2 + c3*x^3 where the four coefficients are
read from the flat coefficient buffer at index
(coefficient_order * init_length + segment) * 8 + parameter (parameter
fastest-varying), and x = i*delta_t minus the start time of the segment given
by the sample-to-segment map entry for i. -/
theorem spline_layout_and_eval (coeffs : List ℝ) (a : WfArgs) (il seg p i : ℕ) (x : ℝ)
    (hp : p < 8) (hseg : seg < il)
    (hmap : sampleSeg a i = seg) :
    evalCubic (stagedCoeffs coeffs il) il seg p x
      = coeffs.getD ((0 * il + seg) * 8 + p) 0
        + coeffs.getD ((1 * il + seg) * 8 + p) 0 * x
        + coeffs.getD ((2 * il + seg) * 8 + p) 0 * (x * x)
        + coeffs.getD ((3 * il + seg) * 8 + p) 0 * (x * (x * x)) ∧
    sampleX a il i = a.delta_t * i - a.start_t_all.getD seg 0 := by
  constructor
  · unfold evalCubic stagedCoeffs coeffIndex
    rw [getD_take _ _ _ _ (by omega), getD_take _ _ _ _ (by omega),
      getD_take _ _ _ _ (by omega), getD_take _ _ _ _ (by omega)]
  · unfold sampleX stagedStartT
    rw [hmap, getD_take _ _ _ _ hseg]

/-- Witness for C5 at segment 0, parameter 0, sample 0. -/
theorem spline_layout_and_eval_witness :
    (0 : ℕ) < 8 ∧ (0 : ℕ) < 1 ∧
    evalCubic (stagedCoeffs [] 1) 1 0 0 0
      = ([] : List ℝ).getD ((0 * 1 + 0) * 8 + 0) 0
        + ([] : List ℝ).getD ((1 * 1 + 0) * 8 + 0) 0 * 0
        + ([] : List ℝ).getD ((2 * 1 + 0) * 8 + 0) 0 * (0 * 0)
        + ([] : List ℝ).getD ((3 * 1 + 0) * 8 + 0) 0 * (0 * (0 * 0)) ∧
    sampleX argsZero 1 0 = argsZero.delta_t * ((0 : ℕ) : ℝ)
      - argsZero.start_t_all.getD 0 0 := by
  have h := spline_layout_and_eval [] argsZero 1 0 0 0 0 (by decide) (by decide) rfl
  exact ⟨by decide, by decide, h.1, h.2⟩

end GpuAAK
